import Mathlib

/-!
# Hotel simulation (`hotel_simulation.cpp`)

A shallow embedding of the classes `Hotel`, `Generator` and `Client` of
`hotel_simulation.cpp`, followed by theorems about them.

Conventions of the embedding.

* C++ `int` fields and locals are `Int`.  The only counter that is not bounded
  by a configuration value is the id counter `Generator::i`; signed overflow of
  it (undefined behaviour, after `2^31 - 1` created clients) is not modelled.
* `rand()` is a stream `rand : Nat → Nat` of non-negative draws together with
  the number of calls made so far.
* Output lines and `pthread_cond_broadcast` calls are recorded, in program
  order, in a trace.
* `number_of_days`, which `Hotel::run` reads but the file does not declare, is
  a parameter.
-/

namespace HotelSim

/-! ## Hotel -/

/-- Fields of `class Hotel`. -/
structure Hotel where
  available_room_count : Int
  current_day : Int
deriving DecidableEq, Repr

/-- Constructor `Hotel::Hotel(int available_room_count)`; `current_day` has the
in-class initialiser `0`. -/
def Hotel.new (available_room_count : Int) : Hotel :=
  { available_room_count := available_room_count, current_day := 0 }

/-- Method `Hotel::check_in`: `available_room_count--`. -/
def Hotel.check_in (h : Hotel) : Hotel :=
  { h with available_room_count := h.available_room_count - 1 }

/-- Method `Hotel::check_out`: `available_room_count++` (then a broadcast of
`has_rooms`, which changes no field). -/
def Hotel.check_out (h : Hotel) : Hotel :=
  { h with available_room_count := h.available_room_count + 1 }

/-- The condition variables the clock broadcasts on. -/
inductive Cond where
  | day_started
  | day_ended
deriving DecidableEq, Repr

/-- One observable action of `Hotel::run`.  A broadcast carries the value of
`current_day` at the moment it is issued. -/
inductive Act where
  | broadcast (c : Cond) (day : Int)
  | sleep
  | logDayStarted (day : Int)
  | logDayEnded (day : Int)
  | logBreak
deriving DecidableEq, Repr

/-- The hotel object together with the actions `Hotel::run` has performed. -/
structure HotelRun where
  hotel : Hotel
  trace : List Act
deriving DecidableEq, Repr

/-- Body of the `for` loop of `Hotel::run` (lines 82-89). -/
def Hotel.dayBody (s : HotelRun) : HotelRun :=
  let d := s.hotel.current_day + 1
  { hotel := { s.hotel with current_day := d },
    trace := s.trace ++
      [Act.logDayStarted d, Act.broadcast Cond.day_started d, Act.sleep,
       Act.logDayEnded d, Act.broadcast Cond.day_ended d, Act.sleep] }

/-- The loop `for (int i = 0; i < number_of_days; i++)` of `Hotel::run`, started
at loop variable `i`; `fuel` bounds the number of iterations. -/
def Hotel.dayLoop (number_of_days : Int) : Nat → Int → HotelRun → HotelRun
  | 0, _, s => s
  | fuel + 1, i, s =>
    if i < number_of_days then
      Hotel.dayLoop number_of_days fuel (i + 1) (Hotel.dayBody s)
    else s

/-- Method `Hotel::run` (lines 75-92).  The loop needs `number_of_days`
iterations at most, which is the fuel it is given. -/
def Hotel.run (number_of_days : Int) (h : Hotel) : HotelRun :=
  let s0 : HotelRun :=
    { hotel := h, trace := [Act.broadcast Cond.day_ended h.current_day, Act.sleep] }
  let s1 := Hotel.dayLoop number_of_days number_of_days.toNat 0 s0
  { s1 with trace := s1.trace ++ [Act.logBreak] }

/-- A day-boundary event. -/
inductive Event where
  | dayStart (day : Int)
  | dayEnd (day : Int)
deriving DecidableEq, Repr

/-- The event an action broadcasts, if it is a broadcast. -/
def Act.event : Act → Option Event
  | Act.broadcast Cond.day_started d => some (Event.dayStart d)
  | Act.broadcast Cond.day_ended d => some (Event.dayEnd d)
  | _ => none

/-- The broadcasts of a trace, in order. -/
def broadcasts (t : List Act) : List Event := t.filterMap Act.event

/-- The day number of a "Day d started" line. -/
def Act.startedDay : Act → Option Int
  | Act.logDayStarted d => some d
  | _ => none

/-- The day numbers logged as started, in order. -/
def startedDays (t : List Act) : List Int := t.filterMap Act.startedDay

/-- Whether an event is a day-start. -/
def Event.isStart : Event → Bool
  | Event.dayStart _ => true
  | Event.dayEnd _ => false

/-- Whether an event is a day-end. -/
def Event.isEnd : Event → Bool
  | Event.dayStart _ => false
  | Event.dayEnd _ => true

/-- The sequence `day-end(0), day-start(1), day-end(1), ..., day-start(N),
day-end(N)` the clock is expected to issue. -/
def clockEvents : Nat → List Event
  | 0 => [Event.dayEnd 0]
  | n + 1 => clockEvents n ++ [Event.dayStart ((n : Int) + 1), Event.dayEnd ((n : Int) + 1)]

/-- The numbers `1, 2, ..., n`, in increasing order. -/
def countUp : Nat → List Int
  | 0 => []
  | n + 1 => countUp n ++ [(n : Int) + 1]

/-! ## Client -/

/-- Where a client thread stands inside `Client::run`. -/
inductive Pc where
  /-- Lines 129-133: wants `hotel_mutex`, or waits on `has_rooms`. -/
  | waiting
  /-- Lines 137-140: holds a room, has not yet decremented `clients_count`. -/
  | checkedIn
  /-- Lines 142-147: in the `for` loop, with loop variable `i`. -/
  | staying (i : Int)
  /-- After line 152: checked out. -/
  | gone
deriving DecidableEq, Repr

/-- Fields of `class Client`, with the position of its thread. -/
structure Client where
  id : Int
  days_to_stay : Int
  pc : Pc
deriving DecidableEq, Repr

/-- Constructor `Client::Client(int id, int days_to_stay, Hotel* hotel)`; the
thread starts at the top of `Client::run`. -/
def Client.new (id days_to_stay : Int) : Client :=
  { id := id, days_to_stay := days_to_stay, pc := Pc.waiting }

/-- Whether the client holds a room: it has checked in and not checked out. -/
def Client.housed (c : Client) : Bool :=
  match c.pc with
  | Pc.checkedIn => true
  | Pc.staying _ => true
  | _ => false

/-- Whether the client still exists: it waits for a room or holds one. -/
def Client.alive (c : Client) : Bool :=
  match c.pc with
  | Pc.gone => false
  | _ => true

/-- Whether the client still counts in `clients_count`: it was created and has
not yet run the decrement of lines 138-140. -/
def Client.benched (c : Client) : Bool :=
  match c.pc with
  | Pc.waiting => true
  | Pc.checkedIn => true
  | _ => false

/-! ## The stay loop and `daily_mutex` -/

/-- Where a housed client stands in lines 142-152 of `Client::run`. -/
inductive StayPc where
  /-- Line 142: about to test `i < days_to_stay`. -/
  | atTest (i : Int)
  /-- Line 145: inside `pthread_cond_wait`, blocked on `day_started`. -/
  | blocked (i : Int)
  /-- Line 145: woken by a broadcast, acquiring `daily_mutex` again, which
  `pthread_cond_wait` does before it returns. -/
  | relock (i : Int)
  /-- After line 152: checked out. -/
  | done
deriving DecidableEq, Repr

/-- A housed client: its `days_to_stay`, the position of its thread and the
numbers of the "stayed here for ... days" lines it has printed. -/
structure Guest where
  days_to_stay : Int
  pc : StayPc
  stayed : List Int
deriving DecidableEq, Repr

/-- The housed clients, the client whose thread holds `daily_mutex` (the source
locks it only inside `pthread_cond_wait` and has no `pthread_mutex_unlock` for
it), and the number of `day_started` broadcasts issued. -/
structure Stay where
  guests : List Guest
  daily_mutex : Option Nat
  broadcasts : Nat
deriving DecidableEq, Repr

/-- Effect of `pthread_cond_broadcast(&day_started)` on one client: a client
blocked on the condition variable is woken and has to take the mutex again. -/
def Guest.wake (g : Guest) : Guest :=
  match g.pc with
  | StayPc.blocked i => { g with pc := StayPc.relock i }
  | _ => g

/-- Whether the client is inside its `pthread_cond_wait`. -/
def Guest.inWait (g : Guest) : Bool :=
  match g.pc with
  | StayPc.blocked _ => true
  | StayPc.relock _ => true
  | _ => false

/-- A move of the scheduler: the clock broadcasts `day_started`, or the thread
of client `n` runs to its next blocking point. -/
inductive Move where
  | dayStart
  | run (n : Nat)
deriving DecidableEq, Repr

/-- One move; `none` when the thread cannot move.

* At the loop test with `i < days_to_stay` the client calls
  `pthread_cond_wait(&day_started, &daily_mutex)`, which releases the mutex and
  blocks.  When the caller does not hold the mutex the release is undefined by
  POSIX: with `foreignUnlock` it frees the mutex whoever holds it, without it
  the mutex is left as it is.
* At the loop test with `i ≥ days_to_stay` the client checks out (lines
  149-152); it does not unlock `daily_mutex`.
* A woken client returns from the wait once it has the mutex, prints its
  "stayed" line and increments `i` (lines 145-146 and 142).
-/
def Stay.step (foreignUnlock : Bool) (s : Stay) : Move → Option Stay
  | Move.dayStart =>
    some { s with guests := s.guests.map Guest.wake, broadcasts := s.broadcasts + 1 }
  | Move.run n =>
    match s.guests[n]? with
    | none => none
    | some g =>
      match g.pc with
      | StayPc.atTest i =>
        if i < g.days_to_stay then
          some { s with
            guests := s.guests.set n { g with pc := StayPc.blocked i },
            daily_mutex :=
              if s.daily_mutex = some n ∨ foreignUnlock = true then none else s.daily_mutex }
        else
          some { s with guests := s.guests.set n { g with pc := StayPc.done } }
      | StayPc.blocked _ => none
      | StayPc.relock i =>
        match s.daily_mutex with
        | none =>
          some { s with
            guests := s.guests.set n
              { g with pc := StayPc.atTest (i + 1), stayed := g.stayed ++ [i + 1] },
            daily_mutex := some n }
        | some _ => none
      | StayPc.done => none

/-- A sequence of moves, each enabled when it is taken. -/
def Stay.exec (foreignUnlock : Bool) : Stay → List Move → Option Stay
  | s, [] => some s
  | s, m :: rest =>
    match Stay.step foreignUnlock s m with
    | none => none
    | some s1 => Stay.exec foreignUnlock s1 rest

/-- Whether client `n` has checked out. -/
def Stay.checkedOut (s : Stay) (n : Nat) : Bool :=
  match s.guests[n]? with
  | some g => decide (g.pc = StayPc.done)
  | none => false

/-- Whether every housed client is inside its wait and nobody holds the mutex. -/
def Stay.allInWait (s : Stay) : Bool :=
  s.guests.all Guest.inWait && decide (s.daily_mutex = none)

/-- Every client that is outside its wait holds `daily_mutex`. -/
def MutexInv (s : Stay) : Prop :=
  ∀ (n : Nat) (g : Guest), s.guests[n]? = some g → g.inWait = false → s.daily_mutex = some n

/-- Two housed clients, with `days_to_stay` 1 and 2, both blocked in their first
wait on `day_started`. -/
def twoGuests : Stay :=
  { guests := [{ days_to_stay := 1, pc := StayPc.blocked 0, stayed := [] },
               { days_to_stay := 2, pc := StayPc.blocked 0, stayed := [] }],
    daily_mutex := none, broadcasts := 0 }

/-- The state in which the first of the two clients has checked out holding
`daily_mutex` and the second is stopped at the mutex, after `b` broadcasts. -/
def starved (b : Nat) : Stay :=
  { guests := [{ days_to_stay := 1, pc := StayPc.done, stayed := [1] },
               { days_to_stay := 2, pc := StayPc.relock 0, stayed := [] }],
    daily_mutex := some 0, broadcasts := b }

/-- A lone housed client with `days_to_stay = 3`, blocked in its first wait. -/
def loneGuest : Stay :=
  { guests := [{ days_to_stay := 3, pc := StayPc.blocked 0, stayed := [] }],
    daily_mutex := none, broadcasts := 0 }

/-! ## Generator -/

/-- Fields of `class Generator` that `Generator::run` changes, the static
`clients_count` among them, and the number of `rand()` calls made so far. -/
structure Generator where
  i : Int
  clients_count : Int
  calls : Nat
deriving DecidableEq, Repr

/-- Initial values: `int i = 1`, `int Generator::clients_count = 0`. -/
def Generator.new : Generator :=
  { i := 1, clients_count := 0, calls := 0 }

/-- Output lines of the generator thread. -/
inductive Line where
  /-- The line "Came client ..." of the `Client` constructor. -/
  | came (id days_to_stay : Int)
  /-- The line "The hotel and benches in front of it are FULL. ...". -/
  | full
  /-- The line "`n` clients are waiting near the hotel.". -/
  | waitingNear (n : Int)
deriving DecidableEq, Repr

/-- The generator during one iteration of `Generator::run`: its fields, the
client threads it has started and the lines it has printed in this iteration. -/
structure GenRun where
  gen : Generator
  started : List Client
  out : List Line
deriving DecidableEq, Repr

/-- Line 172: `int count = rand() % MAX_NEW_CLIENTS_PER_DAY + 1` for the draw
`r`.  The remainder of C++ truncates; a remainder by zero is undefined
behaviour, rendered as `none`. -/
def Generator.count (MAX_NEW_CLIENTS_PER_DAY : Int) (r : Nat) : Option Int :=
  if MAX_NEW_CLIENTS_PER_DAY = 0 then none
  else some (Int.tmod (r : Int) MAX_NEW_CLIENTS_PER_DAY + 1)

/-- Line 180: `int dts = rand() % 7 + 1` for the draw `r`. -/
def Generator.dts (r : Nat) : Int :=
  Int.tmod (r : Int) 7 + 1

/-- Lines 180-184: one client is created and started. -/
def Generator.spawn (rand : Nat → Nat) (s : GenRun) : GenRun :=
  let dts := Generator.dts (rand s.gen.calls)
  { gen := { i := s.gen.i + 1, clients_count := s.gen.clients_count + 1,
             calls := s.gen.calls + 1 },
    started := s.started ++ [Client.new s.gen.i dts],
    out := s.out ++ [Line.came s.gen.i dts] }

/-- Lines 173-185: the loop `for (int _ = 0; _ < count; _++)`, entered with loop
variable `j`.  `fuel` bounds the number of passes: with fuel `n` the result is
the state after at most `n` passes through the body. -/
def Generator.spawnLoop (MAX_CLIENT_COUNT : Int) (rand : Nat → Nat) (count : Int) :
    Nat → Int → GenRun → GenRun
  | 0, _, s => s
  | fuel + 1, j, s =>
    if j < count then
      if s.gen.clients_count ≥ MAX_CLIENT_COUNT then
        { s with out := s.out ++ [Line.full] }
      else
        Generator.spawnLoop MAX_CLIENT_COUNT rand count fuel (j + 1) (Generator.spawn rand s)
    else s

/-- The generator right after line 172 of an iteration: one draw consumed. -/
def Generator.drawn (g : Generator) : GenRun :=
  { gen := { g with calls := g.calls + 1 }, started := [], out := [] }

/-- Lines 170-187: one iteration of the `while (true)` of `Generator::run`, the
processing of one day-end event.  The loop needs `count` passes at most, which
is the fuel it is given. -/
def Generator.iteration (MAX_CLIENT_COUNT MAX_NEW_CLIENTS_PER_DAY : Int)
    (rand : Nat → Nat) (g : Generator) : Option GenRun :=
  match Generator.count MAX_NEW_CLIENTS_PER_DAY (rand g.calls) with
  | none => none
  | some count =>
    let s := Generator.spawnLoop MAX_CLIENT_COUNT rand count count.toNat 0 (Generator.drawn g)
    some { s with out := s.out ++ [Line.waitingNear s.gen.clients_count] }

/-- The number of "FULL" notices among some lines. -/
def notices (out : List Line) : Nat := out.count Line.full

/-! ## The hotel, the generator and the clients together -/

/-- The values the program is configured with, and the draws of `rand()`. -/
structure Config where
  rooms : Int
  MAX_CLIENT_COUNT : Int
  MAX_NEW_CLIENTS_PER_DAY : Int
  rand : Nat → Nat

/-- The shared objects and every client created so far, in creation order
(clients that checked out stay in the list, at `Pc.gone`). -/
structure World where
  hotel : Hotel
  gen : Generator
  clients : List Client
deriving DecidableEq, Repr

/-- The state `main` sets up: a hotel with all its rooms free, no client. -/
def World.init (cfg : Config) : World :=
  { hotel := Hotel.new cfg.rooms, gen := Generator.new, clients := [] }

/-- The atomic steps of the threads.  A client is named by its position in
creation order. -/
inductive Step where
  /-- The generator processes one day-end event, under `generator_mutex`. -/
  | dayEnd
  /-- Lines 129-136 of `Client::run`, under `hotel_mutex`. -/
  | checkIn (n : Nat)
  /-- Lines 138-140 of `Client::run`, under `generator_mutex`. -/
  | leaveBench (n : Nat)
  /-- Lines 145-146 of `Client::run`: one wait on `day_started` returns. -/
  | dayStart (n : Nat)
  /-- Lines 149-152 of `Client::run`, under `hotel_mutex`. -/
  | checkOut (n : Nat)
deriving DecidableEq, Repr

/-- One step; `none` when the step is not enabled.  A `dayStart` step may be
taken whenever the client is inside its loop, which covers every moment the
clock can broadcast `day_started`. -/
def World.step (cfg : Config) (w : World) : Step → Option World
  | Step.dayEnd =>
    match Generator.iteration cfg.MAX_CLIENT_COUNT cfg.MAX_NEW_CLIENTS_PER_DAY cfg.rand w.gen with
    | none => none
    | some r => some { w with gen := r.gen, clients := w.clients ++ r.started }
  | Step.checkIn n =>
    match w.clients[n]? with
    | none => none
    | some c =>
      if c.pc = Pc.waiting ∧ ¬ (w.hotel.available_room_count ≤ 0) then
        some { w with hotel := w.hotel.check_in,
                      clients := w.clients.set n { c with pc := Pc.checkedIn } }
      else none
  | Step.leaveBench n =>
    match w.clients[n]? with
    | none => none
    | some c =>
      if c.pc = Pc.checkedIn then
        some { w with gen := { w.gen with clients_count := w.gen.clients_count - 1 },
                      clients := w.clients.set n { c with pc := Pc.staying 0 } }
      else none
  | Step.dayStart n =>
    match w.clients[n]? with
    | none => none
    | some c =>
      match c.pc with
      | Pc.staying i =>
        if i < c.days_to_stay then
          some { w with clients := w.clients.set n { c with pc := Pc.staying (i + 1) } }
        else none
      | _ => none
  | Step.checkOut n =>
    match w.clients[n]? with
    | none => none
    | some c =>
      match c.pc with
      | Pc.staying i =>
        if i < c.days_to_stay then none
        else
          some { w with hotel := w.hotel.check_out,
                        clients := w.clients.set n { c with pc := Pc.gone } }
      | _ => none

/-- A sequence of steps, each enabled when it is taken. -/
def World.exec (cfg : Config) : World → List Step → Option World
  | w, [] => some w
  | w, s :: rest =>
    match World.step cfg w s with
    | none => none
    | some w1 => World.exec cfg w1 rest

/-- The states reachable from the initial one. -/
def Reachable (cfg : Config) (w : World) : Prop :=
  ∃ steps : List Step, World.exec cfg (World.init cfg) steps = some w

/-- The number of clients holding a room. -/
def World.housed (w : World) : Nat := w.clients.countP Client.housed

/-- The number of clients that exist, waiting or housed. -/
def World.alive (w : World) : Nat := w.clients.countP Client.alive

/-- The free rooms and the housed clients add up to the capacity, and the free
rooms are not negative. -/
def PoolInv (cfg : Config) (w : World) : Prop :=
  w.hotel.available_room_count + (w.housed : Int) = cfg.rooms ∧
  0 ≤ w.hotel.available_room_count

/-- The counter `clients_count` is the number of clients that have not yet run
their decrement, and it is within the cap. -/
def BenchInv (cfg : Config) (w : World) : Prop :=
  w.gen.clients_count = (w.clients.countP Client.benched : Int) ∧
  w.gen.clients_count ≤ cfg.MAX_CLIENT_COUNT

/-- The ids of the clients created so far are `1, 2, ..., n` in creation order
and the id counter of the generator is `n + 1`. -/
def IdInv (w : World) : Prop :=
  w.clients.map Client.id = countUp w.clients.length ∧
  w.gen.i = (w.clients.length : Int) + 1

/-- The state a sequence of steps leads to (the initial state when a step of
the sequence is not enabled). -/
def World.after (cfg : Config) (steps : List Step) : World :=
  (World.exec cfg (World.init cfg) steps).getD (World.init cfg)

/-- Scenario A: one room, at most one new client per day, cap 10. -/
def scenarioA : Config :=
  { rooms := 1, MAX_CLIENT_COUNT := 10, MAX_NEW_CLIENTS_PER_DAY := 1, rand := fun _ => 0 }

/-- Thirty rooms, at most one new client per day, cap 1. -/
def capOne : Config :=
  { rooms := 30, MAX_CLIENT_COUNT := 1, MAX_NEW_CLIENTS_PER_DAY := 1, rand := fun _ => 0 }

/-- Thirty rooms, up to three new clients per day, cap 2; every draw is 2. -/
def capTwo : Config :=
  { rooms := 30, MAX_CLIENT_COUNT := 2, MAX_NEW_CLIENTS_PER_DAY := 3, rand := fun _ => 2 }

/-! ## The clock thread and the generator thread on `day_ended` -/

/-- Where the generator thread stands inside `Generator::run`. -/
inductive GenPc where
  /-- Line 170: about to lock `generator_mutex`. -/
  | atLock
  /-- Line 171: holds the mutex, about to call `pthread_cond_wait`. -/
  | atWait
  /-- Line 171: blocked inside `pthread_cond_wait(&day_ended, ...)`. -/
  | blocked
  /-- Lines 172-187: woken up, processing the event. -/
  | processing
deriving DecidableEq, Repr

/-- The two threads `main` starts: the actions `Hotel::run` has still to
perform, the position of the generator, the number of `day_ended` broadcasts
issued and the number of iterations the generator has completed. -/
structure Threads where
  hotel : List Act
  genPc : GenPc
  issued : Nat
  processed : Nat
deriving DecidableEq, Repr

/-- Both threads at their first instruction. -/
def Threads.init (number_of_days : Int) : Threads :=
  { hotel := (Hotel.run number_of_days (Hotel.new 30)).trace, genPc := GenPc.atLock,
    issued := 0, processed := 0 }

/-- The thread the scheduler lets run next. -/
inductive Sched where
  | hotel
  | generator
deriving DecidableEq, Repr

/-- One scheduling step; `none` when the chosen thread cannot move.
`pthread_cond_broadcast` unblocks the threads blocked on the condition variable
at that moment and has no effect on any other thread. -/
def Threads.step (t : Threads) : Sched → Option Threads
  | Sched.hotel =>
    match t.hotel with
    | [] => none
    | Act.broadcast Cond.day_ended _ :: rest =>
      some { t with hotel := rest, issued := t.issued + 1,
                    genPc := if t.genPc = GenPc.blocked then GenPc.processing else t.genPc }
    | _ :: rest => some { t with hotel := rest }
  | Sched.generator =>
    match t.genPc with
    | GenPc.atLock => some { t with genPc := GenPc.atWait }
    | GenPc.atWait => some { t with genPc := GenPc.blocked }
    | GenPc.blocked => none
    | GenPc.processing => some { t with genPc := GenPc.atLock, processed := t.processed + 1 }

/-- The generator is at least one event behind the clock: counting the event it
is processing, it has handled fewer `day_ended` broadcasts than were issued. -/
def Behind (t : Threads) : Prop :=
  t.processed + (if t.genPc = GenPc.processing then 1 else 0) + 1 ≤ t.issued

/-- A schedule, each step enabled when it is taken. -/
def Threads.exec : Threads → List Sched → Option Threads
  | t, [] => some t
  | t, s :: rest =>
    match Threads.step t s with
    | none => none
    | some t1 => Threads.exec t1 rest

/-! ## The clock -/

theorem broadcasts_append (t u : List Act) :
    broadcasts (t ++ u) = broadcasts t ++ broadcasts u := by
  simp [broadcasts]

theorem startedDays_append (t u : List Act) :
    startedDays (t ++ u) = startedDays t ++ startedDays u := by
  simp [startedDays]

theorem broadcasts_dayBody (s : HotelRun) :
    broadcasts (Hotel.dayBody s).trace = broadcasts s.trace ++
      [Event.dayStart (s.hotel.current_day + 1), Event.dayEnd (s.hotel.current_day + 1)] := by
  simp [Hotel.dayBody, broadcasts, Act.event]

theorem startedDays_dayBody (s : HotelRun) :
    startedDays (Hotel.dayBody s).trace = startedDays s.trace ++ [s.hotel.current_day + 1] := by
  simp [Hotel.dayBody, startedDays, Act.startedDay]

theorem current_day_dayBody (s : HotelRun) :
    (Hotel.dayBody s).hotel.current_day = s.hotel.current_day + 1 := rfl

/-- The loop of `Hotel::run`, entered after `k` of `N` days with `N - k` fuel,
completes the expected sequence. -/
theorem dayLoop_spec (N : Nat) : ∀ (fuel k : Nat) (s : HotelRun), N = k + fuel →
    s.hotel.current_day = (k : Int) → broadcasts s.trace = clockEvents k →
    startedDays s.trace = countUp k →
    broadcasts (Hotel.dayLoop (N : Int) fuel (k : Int) s).trace = clockEvents N ∧
    startedDays (Hotel.dayLoop (N : Int) fuel (k : Int) s).trace = countUp N := by
  intro fuel
  induction fuel with
  | zero =>
    intro k s hN _ hb hs
    have hk : k = N := by omega
    subst hk
    exact ⟨hb, hs⟩
  | succ fuel ih =>
    intro k s hN hd hb hs
    have hlt : (k : Int) < (N : Int) := by omega
    have hstep : Hotel.dayLoop (N : Int) (fuel + 1) (k : Int) s =
        Hotel.dayLoop (N : Int) fuel (((k + 1 : Nat)) : Int) (Hotel.dayBody s) := by
      simp [Hotel.dayLoop, hlt]
    rw [hstep]
    apply ih (k + 1) (Hotel.dayBody s) (by omega)
    · rw [current_day_dayBody, hd]; push_cast; rfl
    · rw [broadcasts_dayBody, hb, hd]; rfl
    · rw [startedDays_dayBody, hs, hd]; rfl

theorem clockEvents_length (N : Nat) : (clockEvents N).length = 2 * N + 1 := by
  induction N with
  | zero => rfl
  | succ n ih => simp [clockEvents, ih]; omega

theorem clockEvents_starts (N : Nat) : (clockEvents N).countP Event.isStart = N := by
  induction N with
  | zero => rfl
  | succ n ih => simp [clockEvents, ih, Event.isStart, List.countP_append, List.countP_cons]

theorem clockEvents_ends (N : Nat) :
    (clockEvents N).countP Event.isEnd = N + 1 := by
  induction N with
  | zero => rfl
  | succ n ih => simp [clockEvents, ih, Event.isEnd, List.countP_append, List.countP_cons]

theorem clockEvents_head (N : Nat) : (clockEvents N)[0]? = some (Event.dayEnd 0) := by
  induction N with
  | zero => rfl
  | succ n ih =>
    have h : 0 < (clockEvents n).length := by rw [clockEvents_length]; omega
    simp only [clockEvents]
    rw [List.getElem?_append_left h, ih]

theorem clockEvents_pair (N : Nat) : ∀ d : Nat, d < N →
    (clockEvents N)[2 * d + 1]? = some (Event.dayStart ((d : Int) + 1)) ∧
    (clockEvents N)[2 * d + 2]? = some (Event.dayEnd ((d : Int) + 1)) := by
  induction N with
  | zero => intro d hd; omega
  | succ n ih =>
    intro d hd
    have hlen := clockEvents_length n
    simp only [clockEvents]
    by_cases h : d < n
    · have h1 : 2 * d + 1 < (clockEvents n).length := by omega
      have h2 : 2 * d + 2 < (clockEvents n).length := by omega
      rw [List.getElem?_append_left h1, List.getElem?_append_left h2]
      exact ih d h
    · have hdn : d = n := by omega
      subst hdn
      have h1 : (clockEvents d).length ≤ 2 * d + 1 := by omega
      have h2 : (clockEvents d).length ≤ 2 * d + 2 := by omega
      rw [List.getElem?_append_right h1, List.getElem?_append_right h2, hlen]
      have e1 : 2 * d + 1 - (2 * d + 1) = 0 := by omega
      have e2 : 2 * d + 2 - (2 * d + 1) = 1 := by omega
      rw [e1, e2]
      exact ⟨rfl, rfl⟩

theorem clockEvents_last (N : Nat) : (clockEvents N).getLast? = some (Event.dayEnd (N : Int)) := by
  cases N with
  | zero => rfl
  | succ n => simp [clockEvents, List.getLast?_append]

theorem run_broadcasts (N : Nat) (rooms : Int) :
    broadcasts (Hotel.run (N : Int) (Hotel.new rooms)).trace = clockEvents N ∧
    startedDays (Hotel.run (N : Int) (Hotel.new rooms)).trace = countUp N := by
  have h := dayLoop_spec N N 0
    { hotel := Hotel.new rooms,
      trace := [Act.broadcast Cond.day_ended (Hotel.new rooms).current_day, Act.sleep] }
    (by omega) rfl rfl rfl
  simp only [Hotel.run, Int.toNat_ofNat, broadcasts_append, startedDays_append]
  constructor
  · rw [show ((0 : Nat) : Int) = 0 from rfl] at h
    rw [h.1]; simp [broadcasts, Act.event]
  · rw [show ((0 : Nat) : Int) = 0 from rfl] at h
    rw [h.2]; simp [startedDays, Act.startedDay]

/-- C4: for every `number_of_days = N`, the broadcasts of `Hotel::run` are
exactly day-end(0), day-start(1), day-end(1), ..., day-start(N), day-end(N):
`N` day-starts and `N + 1` day-ends, day-end(0) first, day-start(d) at position
`2d - 1` and day-end(d) at position `2d` for every `d` in `1..N`, the days
logged as started are `1..N` in increasing order, day-end(N) is the last
broadcast and the closing log line is the last action of the run. -/
theorem clock_event_sequence (N : Nat) (rooms : Int) :
    broadcasts (Hotel.run (N : Int) (Hotel.new rooms)).trace = clockEvents N ∧
    (broadcasts (Hotel.run (N : Int) (Hotel.new rooms)).trace).countP Event.isStart = N ∧
    (broadcasts (Hotel.run (N : Int) (Hotel.new rooms)).trace).countP Event.isEnd = N + 1 ∧
    (broadcasts (Hotel.run (N : Int) (Hotel.new rooms)).trace).length = 2 * N + 1 ∧
    (broadcasts (Hotel.run (N : Int) (Hotel.new rooms)).trace)[0]? = some (Event.dayEnd 0) ∧
    (∀ d : Nat, d < N →
      (broadcasts (Hotel.run (N : Int) (Hotel.new rooms)).trace)[2 * d + 1]? =
        some (Event.dayStart ((d : Int) + 1)) ∧
      (broadcasts (Hotel.run (N : Int) (Hotel.new rooms)).trace)[2 * d + 2]? =
        some (Event.dayEnd ((d : Int) + 1))) ∧
    startedDays (Hotel.run (N : Int) (Hotel.new rooms)).trace = countUp N ∧
    (broadcasts (Hotel.run (N : Int) (Hotel.new rooms)).trace).getLast? =
      some (Event.dayEnd (N : Int)) ∧
    (Hotel.run (N : Int) (Hotel.new rooms)).trace.getLast? = some Act.logBreak := by
  rw [(run_broadcasts N rooms).1, (run_broadcasts N rooms).2]
  refine ⟨rfl, clockEvents_starts N, clockEvents_ends N, clockEvents_length N,
    clockEvents_head N, clockEvents_pair N, rfl, clockEvents_last N, ?_⟩
  simp [Hotel.run, List.getLast?_append]

/-! ## The stay loop and `daily_mutex` -/

theorem countUp_eq_map (n : Nat) :
    countUp n = (List.range n).map (fun x : Nat => (x : Int) + 1) := by
  induction n with
  | zero => rfl
  | succ n ih => simp [countUp, ih, List.range_succ]

theorem wake_inWait (g : Guest) : (Guest.wake g).inWait = g.inWait := by
  unfold Guest.wake Guest.inWait
  cases h : g.pc <;> simp [h]

theorem mutexInv_step (fu : Bool) (s s1 : Stay) (m : Move)
    (h : Stay.step fu s m = some s1) (hs : MutexInv s) : MutexInv s1 := by
  cases m with
  | dayStart =>
    simp only [Stay.step, Option.some.injEq] at h
    subst h
    intro n g hg hw
    simp only [List.getElem?_map] at hg
    cases hx : s.guests[n]? with
    | none => rw [hx] at hg; exact absurd hg (by simp)
    | some g0 =>
      rw [hx] at hg
      simp only [Option.map_some', Option.some.injEq] at hg
      subst hg
      rw [wake_inWait] at hw
      exact hs n g0 hx hw
  | run k =>
    simp only [Stay.step] at h
    split at h
    · exact absurd h (by simp)
    · rename_i g0 hg0
      split at h
      · rename_i i hpc
        have hown : s.daily_mutex = some k := hs k g0 hg0 (by simp [Guest.inWait, hpc])
        split at h
        · simp only [Option.some.injEq] at h
          subst h
          intro n g hg hw
          simp only [List.getElem?_set] at hg
          by_cases hkn : k = n
          · simp only [hkn, if_true] at hg
            split at hg
            · simp only [Option.some.injEq] at hg
              subst hg
              exact absurd hw (by simp [Guest.inWait])
            · exact absurd hg (by simp)
          · simp only [hkn, if_false] at hg
            have := hs n g hg hw
            rw [hown] at this
            exact absurd (Option.some.inj this) hkn
        · simp only [Option.some.injEq] at h
          subst h
          intro n g hg hw
          simp only [List.getElem?_set] at hg
          by_cases hkn : k = n
          · subst hkn
            exact hown
          · simp only [hkn, if_false] at hg
            exact hs n g hg hw
      · exact absurd h (by simp)
      · rename_i i hpc
        split at h
        · rename_i hfree
          simp only [Option.some.injEq] at h
          subst h
          intro n g hg hw
          simp only [List.getElem?_set] at hg
          by_cases hkn : k = n
          · subst hkn
            rfl
          · simp only [hkn, if_false] at hg
            have := hs n g hg hw
            rw [hfree] at this
            exact absurd this (by simp)
        · exact absurd h (by simp)
      · exact absurd h (by simp)

theorem mutexInv_exec (fu : Bool) : ∀ (moves : List Move) (s s1 : Stay),
    Stay.exec fu s moves = some s1 → MutexInv s → MutexInv s1 := by
  intro moves
  induction moves with
  | nil =>
    intro s s1 h hs
    simp only [Stay.exec, Option.some.injEq] at h
    exact h ▸ hs
  | cons m rest ih =>
    intro s s1 h hs
    unfold Stay.exec at h
    cases hm : Stay.step fu s m with
    | none => rw [hm] at h; exact absurd h (by simp)
    | some s2 =>
      rw [hm] at h
      exact ih s2 s1 h (mutexInv_step fu s s2 m hm hs)

theorem mutexInv_of_allInWait (s : Stay) (h : s.allInWait = true) : MutexInv s := by
  intro n g hg hw
  simp only [Stay.allInWait, Bool.and_eq_true, List.all_eq_true] at h
  have := h.1 g (List.getElem?_mem hg)
  rw [hw] at this
  exact absurd this (by simp)

theorem checkedOut_owner (s : Stay) (n : Nat) (hs : MutexInv s)
    (h : s.checkedOut n = true) : s.daily_mutex = some n := by
  unfold Stay.checkedOut at h
  split at h
  · rename_i g hg
    have hpc : g.pc = StayPc.done := of_decide_eq_true h
    exact hs n g hg (by simp [Guest.inWait, hpc])
  · exact absurd h (by simp)

/-- C3 (the code breaks it): the waits of line 145 take `daily_mutex` again
before they return and nothing ever unlocks it but the next wait of the same
client, so a client that leaves its loop keeps the mutex for good.  Hence, of
the housed clients that are inside their wait on `day_started`, at most one
ever checks out, whatever the number of day-starts broadcast, the order of the
threads and the outcome of the undefined unlock: once client `n` has checked
out no other client `m` has, so the others do not get their `days_to_stay`
day-starts. -/
theorem stay_blocked_by_daily_mutex (foreignUnlock : Bool) (s0 s : Stay) (moves : List Move)
    (n m : Nat) (h0 : s0.allInWait = true)
    (h : Stay.exec foreignUnlock s0 moves = some s) (hne : m ≠ n)
    (hn : s.checkedOut n = true) : s.checkedOut m = false := by
  have hinv := mutexInv_exec foreignUnlock moves s0 s h (mutexInv_of_allInWait s0 h0)
  have hown := checkedOut_owner s n hinv hn
  cases hm : s.checkedOut m with
  | false => rfl
  | true =>
    have := checkedOut_owner s m hinv hm
    rw [hown] at this
    exact absurd (Option.some.inj this).symm hne

/-- Clients 1 and 2 with `days_to_stay` 1 and 2, both waiting; after one
day-start client 1 takes the mutex and checks out; two more day-starts come:
client 2 is still stopped at the mutex, has printed no "stayed" line and has
not checked out, and its thread cannot move. -/
theorem stay_blocked_by_daily_mutex_witness :
    twoGuests.allInWait = true ∧
    Stay.exec false twoGuests
      [Move.dayStart, Move.run 0, Move.run 0, Move.dayStart, Move.dayStart] =
      some (starved 3) ∧
    (1 : Nat) ≠ 0 ∧
    (starved 3).checkedOut 0 = true ∧
    (starved 3).checkedOut 1 = false ∧
    Stay.step false (starved 3) (Move.run 1) = none ∧
    Stay.step true (starved 3) (Move.run 1) = none :=
  ⟨by decide, by decide, by decide, by decide,
   stay_blocked_by_daily_mutex false twoGuests (starved 3)
     [Move.dayStart, Move.run 0, Move.run 0, Move.dayStart, Move.dayStart] 0 1
     (by decide) (by decide) (by decide) (by decide),
   by decide, by decide⟩

theorem starved_step (fu : Bool) (b : Nat) (m : Move) (s : Stay)
    (h : Stay.step fu (starved b) m = some s) : s = starved (b + 1) := by
  cases m with
  | dayStart =>
    simp only [Stay.step, Option.some.injEq] at h
    subst h
    rfl
  | run k =>
    exfalso
    match k with
    | 0 => simp [Stay.step, starved] at h
    | 1 => simp [Stay.step, starved] at h
    | k + 2 => simp [Stay.step, starved] at h

/-- Once the first of the two clients has checked out holding `daily_mutex`, the
second never leaves the wait: every later state is the same but for the number
of broadcasts, however many day-starts follow. -/
theorem starved_forever (fu : Bool) : ∀ (moves : List Move) (b : Nat) (s : Stay),
    Stay.exec fu (starved b) moves = some s → s = starved (b + moves.length) := by
  intro moves
  induction moves with
  | nil =>
    intro b s h
    simp only [Stay.exec, Option.some.injEq] at h
    simpa using h.symm
  | cons m rest ih =>
    intro b s h
    unfold Stay.exec at h
    cases hm : Stay.step fu (starved b) m with
    | none => rw [hm] at h; exact absurd h (by simp)
    | some s2 =>
      rw [hm] at h
      have := starved_step fu b m s2 hm
      subst this
      have := ih (b + 1) s h
      rw [this, List.length_cons]
      congr 1
      omega

/-- A lone client with `days_to_stay = 3` that is blocked in its wait at every
broadcast gets its three day-starts and checks out after the third. -/
theorem lone_guest_three_days :
    Stay.exec false loneGuest
      [Move.dayStart, Move.run 0, Move.run 0, Move.dayStart, Move.run 0, Move.run 0,
       Move.dayStart, Move.run 0, Move.run 0] =
      some { guests := [{ days_to_stay := 3, pc := StayPc.done, stayed := [1, 2, 3] }],
             daily_mutex := some 0, broadcasts := 3 } := by
  decide

/-! ## The generator -/

theorem notices_came (out : List Line) (id dts : Int) :
    notices (out ++ [Line.came id dts]) = notices out := by
  simp [notices, List.count_append, List.count_cons]

theorem notices_full (out : List Line) : notices (out ++ [Line.full]) = notices out + 1 := by
  simp [notices, List.count_append, List.count_cons]

theorem notices_waitingNear (out : List Line) (n : Int) :
    notices (out ++ [Line.waitingNear n]) = notices out := by
  simp [notices, List.count_append, List.count_cons]

theorem count_bounds (m : Int) (r : Nat) (hm : 1 ≤ m) :
    ∃ c, Generator.count m r = some c ∧ 1 ≤ c ∧ c ≤ m := by
  have h0 : m ≠ 0 := by omega
  refine ⟨Int.tmod (r : Int) m + 1, by simp [Generator.count, h0], ?_, ?_⟩
  · have := Int.tmod_nonneg m (Int.ofNat_nonneg r)
    omega
  · have := Int.tmod_lt_of_pos (r : Int) (show 0 < m by omega)
    omega

theorem dts_bounds (r : Nat) : 1 ≤ Generator.dts r ∧ Generator.dts r ≤ 7 := by
  have h1 := Int.tmod_nonneg 7 (Int.ofNat_nonneg r)
  have h2 := Int.tmod_lt_of_pos (r : Int) (show (0 : Int) < 7 by decide)
  unfold Generator.dts
  constructor <;> omega

/-- At every pass boundary of the spawn loop the counter is within the cap. -/
theorem spawnLoop_le_cap (cap : Int) (rand : Nat → Nat) (count : Int) :
    ∀ (fuel : Nat) (j : Int) (s : GenRun), s.gen.clients_count ≤ cap →
      (Generator.spawnLoop cap rand count fuel j s).gen.clients_count ≤ cap := by
  intro fuel
  induction fuel with
  | zero => intro j s h; exact h
  | succ fuel ih =>
    intro j s h
    unfold Generator.spawnLoop
    by_cases hj : j < count
    · by_cases hc : s.gen.clients_count ≥ cap
      · simp only [hj, hc, if_true]; exact h
      · simp only [hj, hc, if_true, if_false]
        apply ih
        simp only [Generator.spawn]
        omega
    · simp only [hj, if_false]; exact h

/-- Once the counter has reached the cap the spawn loop starts no client. -/
theorem spawnLoop_full (cap : Int) (rand : Nat → Nat) (count : Int) :
    ∀ (fuel : Nat) (j : Int) (s : GenRun), s.gen.clients_count ≥ cap →
      (Generator.spawnLoop cap rand count fuel j s).started = s.started := by
  intro fuel j s h
  cases fuel with
  | zero => rfl
  | succ fuel =>
    unfold Generator.spawnLoop
    by_cases hj : j < count
    · simp only [hj, h, if_true]
    · simp only [hj, if_false]

/-- A longer run of the spawn loop starts no client beyond those of a shorter
run that ended with the counter at the cap. -/
theorem spawnLoop_stops (cap : Int) (rand : Nat → Nat) (count : Int) (k : Nat) :
    ∀ (n : Nat) (j : Int) (s : GenRun),
      (Generator.spawnLoop cap rand count n j s).gen.clients_count ≥ cap →
      (Generator.spawnLoop cap rand count (n + k) j s).started =
        (Generator.spawnLoop cap rand count n j s).started := by
  intro n
  induction n with
  | zero =>
    intro j s h
    rw [Nat.zero_add]
    exact spawnLoop_full cap rand count k j s h
  | succ n ih =>
    intro j s h
    rw [show n + 1 + k = (n + k) + 1 by omega]
    unfold Generator.spawnLoop at h ⊢
    by_cases hj : j < count
    · by_cases hc : s.gen.clients_count ≥ cap
      · simp only [hj, hc, if_true]
      · simp only [hj, hc, if_true, if_false] at h ⊢
        exact ih _ _ h
    · simp only [hj, if_false]

/-- The complete spawn loop: it starts as many clients as the passes left and
the room under the cap allow, and prints one notice exactly when the room was
the smaller of the two. -/
theorem spawnLoop_spec (cap : Int) (rand : Nat → Nat) (count : Int) :
    ∀ (fuel : Nat) (j : Int) (s : GenRun), s.gen.clients_count ≤ cap →
      (count - j).toNat ≤ fuel →
      ((Generator.spawnLoop cap rand count fuel j s).started.length =
        s.started.length + min (count - j).toNat (cap - s.gen.clients_count).toNat) ∧
      ((Generator.spawnLoop cap rand count fuel j s).gen.clients_count =
        s.gen.clients_count + (min (count - j).toNat (cap - s.gen.clients_count).toNat : Nat)) ∧
      (notices (Generator.spawnLoop cap rand count fuel j s).out =
        notices s.out + if (cap - s.gen.clients_count).toNat < (count - j).toNat then 1 else 0) := by
  intro fuel
  induction fuel with
  | zero =>
    intro j s _ hf
    have hp : (count - j).toNat = 0 := by omega
    simp [Generator.spawnLoop, hp]
  | succ fuel ih =>
    intro j s h hf
    unfold Generator.spawnLoop
    by_cases hj : j < count
    · by_cases hc : s.gen.clients_count ≥ cap
      · have hr : (cap - s.gen.clients_count).toNat = 0 := by omega
        have hp : 0 < (count - j).toNat := by omega
        simp only [hj, hc, if_true, hr, notices_full, hp]
        simp
      · simp only [hj, hc, if_true, if_false]
        have h1 : (Generator.spawn rand s).gen.clients_count ≤ cap := by
          simp only [Generator.spawn]; omega
        have h2 : (count - (j + 1)).toNat ≤ fuel := by omega
        obtain ⟨a, b, c⟩ := ih (j + 1) (Generator.spawn rand s) h1 h2
        rw [a, b, c]
        have e1 : (Generator.spawn rand s).gen.clients_count = s.gen.clients_count + 1 := rfl
        have e2 : (Generator.spawn rand s).started.length = s.started.length + 1 := by
          simp [Generator.spawn]
        have e3 : notices (Generator.spawn rand s).out = notices s.out := by
          simp only [Generator.spawn]; exact notices_came _ _ _
        rw [e1, e2, e3]
        refine ⟨by omega, by omega, ?_⟩
        by_cases hlt : (cap - s.gen.clients_count).toNat < (count - j).toNat
        · have : (cap - (s.gen.clients_count + 1)).toNat < (count - (j + 1)).toNat := by omega
          simp [hlt, this]
        · have : ¬ (cap - (s.gen.clients_count + 1)).toNat < (count - (j + 1)).toNat := by omega
          simp [hlt, this]
    · have hp : (count - j).toNat = 0 := by omega
      simp [hj, hp]

/-- A property of the generator and the clients it has started that every spawn
keeps is kept by the spawn loop. -/
theorem spawnLoop_induct (P : Generator → List Client → Prop) (cap : Int) (rand : Nat → Nat)
    (count : Int)
    (hspawn : ∀ s : GenRun, P s.gen s.started →
      P (Generator.spawn rand s).gen (Generator.spawn rand s).started) :
    ∀ (fuel : Nat) (j : Int) (s : GenRun), P s.gen s.started →
      P (Generator.spawnLoop cap rand count fuel j s).gen
        (Generator.spawnLoop cap rand count fuel j s).started := by
  intro fuel
  induction fuel with
  | zero => intro j s h; exact h
  | succ fuel ih =>
    intro j s h
    unfold Generator.spawnLoop
    by_cases hj : j < count
    · by_cases hc : s.gen.clients_count ≥ cap
      · simp only [hj, hc, if_true]; exact h
      · simp only [hj, hc, if_true, if_false]
        exact ih _ _ (hspawn s h)
    · simp only [hj, if_false]; exact h

/-- What `Generator.iteration` returns, in terms of the spawn loop. -/
theorem iteration_eq (cap m : Int) (rand : Nat → Nat) (g : Generator) (r : GenRun)
    (h : Generator.iteration cap m rand g = some r) :
    ∃ count, Generator.count m (rand g.calls) = some count ∧
      r.gen = (Generator.spawnLoop cap rand count count.toNat 0 (Generator.drawn g)).gen ∧
      r.started =
        (Generator.spawnLoop cap rand count count.toNat 0 (Generator.drawn g)).started := by
  unfold Generator.iteration at h
  cases hc : Generator.count m (rand g.calls) with
  | none => rw [hc] at h; exact absurd h (by simp)
  | some count =>
    rw [hc] at h
    simp only [Option.some.injEq] at h
    subst h
    exact ⟨count, rfl, rfl, rfl⟩

/-- A property that every spawn keeps holds of the result of an iteration. -/
theorem iteration_induct (P : Generator → List Client → Prop) (cap m : Int) (rand : Nat → Nat)
    (hspawn : ∀ s : GenRun, P s.gen s.started →
      P (Generator.spawn rand s).gen (Generator.spawn rand s).started)
    (g : Generator) (r : GenRun) (h : Generator.iteration cap m rand g = some r)
    (h0 : P (Generator.drawn g).gen []) : P r.gen r.started := by
  obtain ⟨count, _, hg, hs⟩ := iteration_eq cap m rand g r h
  rw [hg, hs]
  exact spawnLoop_induct P cap rand count hspawn _ _ _ h0

/-- C5: one iteration of `Generator::run` with `MAX_NEW_CLIENTS_PER_DAY ≥ 1`,
entered with `clients_count ≤ MAX_CLIENT_COUNT`, completes; `clients_count` is
at most the cap at every pass boundary of its loop and at its end; once
`clients_count` equals the cap no later pass starts a client; the number of
clients started is the smaller of the drawn count and the room left under the
cap; and the number of "FULL" notices is one when fewer clients than the drawn
count were started and zero otherwise. -/
theorem cap_enforcement (cap m : Int) (rand : Nat → Nat) (g : Generator)
    (hm : 1 ≤ m) (hc : g.clients_count ≤ cap) :
    ∃ count r, Generator.count m (rand g.calls) = some count ∧
      Generator.iteration cap m rand g = some r ∧
      r.started =
        (Generator.spawnLoop cap rand count count.toNat 0 (Generator.drawn g)).started ∧
      (∀ n : Nat,
        (Generator.spawnLoop cap rand count n 0 (Generator.drawn g)).gen.clients_count ≤ cap) ∧
      r.gen.clients_count ≤ cap ∧
      (∀ n k : Nat,
        (Generator.spawnLoop cap rand count n 0 (Generator.drawn g)).gen.clients_count = cap →
        (Generator.spawnLoop cap rand count (n + k) 0 (Generator.drawn g)).started =
          (Generator.spawnLoop cap rand count n 0 (Generator.drawn g)).started) ∧
      (r.started.length : Int) = min count (cap - g.clients_count) ∧
      r.gen.clients_count = g.clients_count + (r.started.length : Int) ∧
      notices r.out = (if (r.started.length : Int) < count then 1 else 0) ∧
      notices r.out ≤ 1 := by
  obtain ⟨count, hcount, h1, _⟩ := count_bounds m (rand g.calls) hm
  have hd : (Generator.drawn g).gen.clients_count ≤ cap := hc
  have hspec := spawnLoop_spec cap rand count count.toNat 0 (Generator.drawn g) hd (by simp)
  obtain ⟨a, b, c⟩ := hspec
  have hdc : (Generator.drawn g).gen.clients_count = g.clients_count := rfl
  have hds : (Generator.drawn g).started.length = 0 := rfl
  have hdo : notices (Generator.drawn g).out = 0 := rfl
  rw [hdc] at b c
  rw [hds, hdc] at a
  rw [hdo] at c
  simp only [sub_zero, Nat.zero_add] at a b c
  refine ⟨count,
    { Generator.spawnLoop cap rand count count.toNat 0 (Generator.drawn g) with
      out := (Generator.spawnLoop cap rand count count.toNat 0 (Generator.drawn g)).out ++
        [Line.waitingNear
          (Generator.spawnLoop cap rand count count.toNat 0 (Generator.drawn g)).gen.clients_count] },
    hcount, ?_, rfl, ?_, ?_, ?_, ?_, ?_, ?_, ?_⟩
  · simp only [Generator.iteration, hcount]
  · intro n
    exact spawnLoop_le_cap cap rand count n 0 _ hd
  · exact spawnLoop_le_cap cap rand count _ 0 _ hd
  · intro n k h
    exact spawnLoop_stops cap rand count k n 0 _ (by omega)
  · rw [a]; omega
  · rw [b, a]
  · rw [notices_waitingNear, c, a]
    by_cases hlt : (cap - g.clients_count).toNat < count.toNat
    · have : ((min count.toNat (cap - g.clients_count).toNat : Nat) : Int) < count := by omega
      rw [if_pos hlt, if_pos this]
    · have : ¬ ((min count.toNat (cap - g.clients_count).toNat : Nat) : Int) < count := by omega
      rw [if_neg hlt, if_neg this]
  · rw [notices_waitingNear, c]
    split <;> omega

/-- Scenario C: cap 5, drawn count 10, nobody waiting: five clients and one
notice. -/
theorem cap_enforcement_witness :
    (1 : Int) ≤ 10 ∧ Generator.new.clients_count ≤ 5 ∧
    ∃ r, Generator.iteration 5 10 (fun _ => 9) Generator.new = some r ∧
      r.started.length = 5 ∧ notices r.out = 1 ∧ r.gen.clients_count = 5 := by
  refine ⟨by decide, by decide, ?_⟩
  obtain ⟨count, r, hcount, hr, _, _, _, _, hlen, hcc, hn, _⟩ :=
    cap_enforcement 5 10 (fun _ => 9) Generator.new (by decide) (by decide)
  have h10 : count = 10 := by
    have : Generator.count 10 9 = some 10 := by decide
    rw [this] at hcount
    exact (Option.some.inj hcount).symm
  subst h10
  have h0 : Generator.new.clients_count = 0 := rfl
  rw [h0] at hlen hcc
  have hl : (r.started.length : Int) = 5 := by rw [hlen]; decide
  refine ⟨r, hr, by omega, ?_, by omega⟩
  rw [hn, hl]
  decide

/-- C9: for every draw `r` of `rand()` and every `MAX_NEW_CLIENTS_PER_DAY = m ≥ 1`
the per-day count `r % m + 1` is defined and lies in `1..m`, the stay length
`r % 7 + 1` lies in `1..7`, and every client an iteration of `Generator::run`
starts has `1 ≤ days_to_stay ≤ 7`. -/
theorem draw_ranges (r : Nat) (m : Int) (hm : 1 ≤ m) :
    (∃ c, Generator.count m r = some c ∧ 1 ≤ c ∧ c ≤ m) ∧
    (1 ≤ Generator.dts r ∧ Generator.dts r ≤ 7) ∧
    (∀ (cap : Int) (rand : Nat → Nat) (g : Generator) (res : GenRun),
      Generator.iteration cap m rand g = some res →
      ∀ c ∈ res.started, 1 ≤ c.days_to_stay ∧ c.days_to_stay ≤ 7) := by
  refine ⟨count_bounds m r hm, dts_bounds r, ?_⟩
  intro cap rand g res h
  refine iteration_induct (fun _ l => ∀ c ∈ l, 1 ≤ c.days_to_stay ∧ c.days_to_stay ≤ 7)
    cap m rand ?_ g res h (by simp)
  intro s hs c hcmem
  simp only [Generator.spawn, List.mem_append, List.mem_singleton] at hcmem
  rcases hcmem with hmem | heq
  · exact hs c hmem
  · subst heq
    exact dts_bounds _

/-- The ranges for the draw 1234567 and at most ten new clients per day. -/
theorem draw_ranges_witness :
    (1 : Int) ≤ 10 ∧
    ((∃ c, Generator.count 10 1234567 = some c ∧ 1 ≤ c ∧ c ≤ 10) ∧
     (1 ≤ Generator.dts 1234567 ∧ Generator.dts 1234567 ≤ 7) ∧
     (∀ (cap : Int) (rand : Nat → Nat) (g : Generator) (res : GenRun),
       Generator.iteration cap 10 rand g = some res →
       ∀ c ∈ res.started, 1 ≤ c.days_to_stay ∧ c.days_to_stay ≤ 7)) :=
  ⟨by decide, draw_ranges 1234567 10 (by decide)⟩

/-- C6: with `MAX_NEW_CLIENTS_PER_DAY = 0` the iteration of `Generator::run`
does not complete: line 172 takes a remainder by zero, for every cap, every
draw and every state of the generator. -/
theorem zero_per_day_undefined (cap : Int) (rand : Nat → Nat) (g : Generator) :
    Generator.count 0 (rand g.calls) = none ∧ Generator.iteration cap 0 rand g = none := by
  have h : Generator.count 0 (rand g.calls) = none := by simp [Generator.count]
  exact ⟨h, by simp only [Generator.iteration, h]⟩

/-! ## Invariants of the reachable states -/

theorem countP_set_getElem (p : Client → Bool) (a c : Client) :
    ∀ (l : List Client) (n : Nat), l[n]? = some c →
      (l.set n a).countP p + (if p c then 1 else 0) = l.countP p + (if p a then 1 else 0) := by
  intro l
  induction l with
  | nil => intro n h; simp at h
  | cons x xs ih =>
    intro n h
    cases n with
    | zero =>
      simp only [List.getElem?_cons_zero, Option.some.injEq] at h
      subst h
      simp only [List.set_cons_zero, List.countP_cons]
      omega
    | succ n =>
      simp only [List.getElem?_cons_succ] at h
      have := ih n h
      simp only [List.set_cons_succ, List.countP_cons]
      omega

theorem map_id_set (a c : Client) (hid : a.id = c.id) :
    ∀ (l : List Client) (n : Nat), l[n]? = some c →
      (l.set n a).map Client.id = l.map Client.id := by
  intro l
  induction l with
  | nil => intro n h; simp at h
  | cons x xs ih =>
    intro n h
    cases n with
    | zero =>
      simp only [List.getElem?_cons_zero, Option.some.injEq] at h
      subst h
      simp [hid]
    | succ n =>
      simp only [List.getElem?_cons_succ] at h
      simp [ih n h]

/-- A property that holds initially and that every step keeps holds of every
reachable state. -/
theorem reachable_induct (cfg : Config) (I : World → Prop) (h0 : I (World.init cfg))
    (hstep : ∀ (w w1 : World) (s : Step), World.step cfg w s = some w1 → I w → I w1) :
    ∀ w, Reachable cfg w → I w := by
  have key : ∀ (steps : List Step) (w w1 : World),
      World.exec cfg w steps = some w1 → I w → I w1 := by
    intro steps
    induction steps with
    | nil =>
      intro w w1 h hw
      simp only [World.exec, Option.some.injEq] at h
      exact h ▸ hw
    | cons s rest ih =>
      intro w w1 h hw
      unfold World.exec at h
      cases hs : World.step cfg w s with
      | none => rw [hs] at h; exact absurd h (by simp)
      | some w2 =>
        rw [hs] at h
        exact ih w2 w1 h (hstep w w2 s hs hw)
  intro w hw
  obtain ⟨steps, h⟩ := hw
  exact key steps _ w h h0

/-- The clients an iteration of the generator starts hold no room. -/
theorem iteration_not_housed (cap m : Int) (rand : Nat → Nat) (g : Generator) (r : GenRun)
    (h : Generator.iteration cap m rand g = some r) : r.started.countP Client.housed = 0 := by
  refine iteration_induct (fun _ l => l.countP Client.housed = 0) cap m rand ?_ g r h rfl
  intro s hs
  simp only [Generator.spawn, List.countP_append, hs]
  rfl

theorem poolInv_step (cfg : Config) (w w1 : World) (s : Step)
    (h : World.step cfg w s = some w1) (hw : PoolInv cfg w) : PoolInv cfg w1 := by
  obtain ⟨hsum, hpos⟩ := hw
  unfold World.housed at hsum
  cases s with
  | dayEnd =>
    simp only [World.step] at h
    split at h
    · exact absurd h (by simp)
    · rename_i r hr
      simp only [Option.some.injEq] at h
      subst h
      have := iteration_not_housed _ _ _ _ _ hr
      simp only [PoolInv, World.housed, List.countP_append, this]
      exact ⟨by simpa using hsum, hpos⟩
  | checkIn n =>
    simp only [World.step] at h
    split at h
    · exact absurd h (by simp)
    · rename_i c hc
      split at h
      · rename_i hg
        simp only [Option.some.injEq] at h
        subst h
        have hcnt := countP_set_getElem Client.housed { c with pc := Pc.checkedIn } c w.clients n hc
        have h1 : Client.housed c = false := by simp [Client.housed, hg.1]
        have h2 : Client.housed { c with pc := Pc.checkedIn } = true := rfl
        simp only [h1, h2] at hcnt
        simp only [PoolInv, World.housed, Hotel.check_in]
        have := hg.2
        constructor
        · simp at hcnt; omega
        · omega
      · exact absurd h (by simp)
  | leaveBench n =>
    simp only [World.step] at h
    split at h
    · exact absurd h (by simp)
    · rename_i c hc
      split at h
      · rename_i hg
        simp only [Option.some.injEq] at h
        subst h
        have hcnt := countP_set_getElem Client.housed { c with pc := Pc.staying 0 } c w.clients n hc
        have h1 : Client.housed c = true := by simp [Client.housed, hg]
        have h2 : Client.housed { c with pc := Pc.staying 0 } = true := rfl
        simp only [h1, h2] at hcnt
        simp only [PoolInv, World.housed]
        constructor
        · simp at hcnt; omega
        · omega
      · exact absurd h (by simp)
  | dayStart n =>
    simp only [World.step] at h
    split at h
    · exact absurd h (by simp)
    · rename_i c hc
      split at h
      · rename_i i hi
        split at h
        · simp only [Option.some.injEq] at h
          subst h
          have hcnt := countP_set_getElem Client.housed { c with pc := Pc.staying (i + 1) } c
            w.clients n hc
          have h1 : Client.housed c = true := by simp [Client.housed, hi]
          have h2 : Client.housed { c with pc := Pc.staying (i + 1) } = true := rfl
          simp only [h1, h2] at hcnt
          simp only [PoolInv, World.housed]
          constructor
          · simp at hcnt; omega
          · omega
        · exact absurd h (by simp)
      · exact absurd h (by simp)
  | checkOut n =>
    simp only [World.step] at h
    split at h
    · exact absurd h (by simp)
    · rename_i c hc
      split at h
      · rename_i i hi
        split at h
        · exact absurd h (by simp)
        · simp only [Option.some.injEq] at h
          subst h
          have hcnt := countP_set_getElem Client.housed { c with pc := Pc.gone } c w.clients n hc
          have h1 : Client.housed c = true := by simp [Client.housed, hi]
          have h2 : Client.housed { c with pc := Pc.gone } = false := rfl
          simp only [h1, h2] at hcnt
          simp only [PoolInv, World.housed, Hotel.check_out]
          constructor
          · simp at hcnt; omega
          · omega
      · exact absurd h (by simp)

theorem poolInv_reachable (cfg : Config) (hC : 0 ≤ cfg.rooms) :
    ∀ w, Reachable cfg w → PoolInv cfg w := by
  apply reachable_induct cfg (PoolInv cfg)
  · exact ⟨by simp [World.init, Hotel.new, World.housed], hC⟩
  · exact poolInv_step cfg

theorem checkIn_effect (cfg : Config) (w w1 : World) (n : Nat)
    (h : World.step cfg w (Step.checkIn n) = some w1) :
    0 < w.hotel.available_room_count ∧
    w1.hotel.available_room_count = w.hotel.available_room_count - 1 := by
  simp only [World.step] at h
  split at h
  · exact absurd h (by simp)
  · split at h
    · rename_i hg
      simp only [Option.some.injEq] at h
      subst h
      exact ⟨by omega, rfl⟩
    · exact absurd h (by simp)

theorem checkOut_effect (cfg : Config) (w w1 : World) (n : Nat)
    (h : World.step cfg w (Step.checkOut n) = some w1) :
    (∃ c, w.clients[n]? = some c ∧ c.housed = true) ∧
    w1.hotel.available_room_count = w.hotel.available_room_count + 1 := by
  simp only [World.step] at h
  split at h
  · exact absurd h (by simp)
  · rename_i c hc
    split at h
    · rename_i i hi
      split at h
      · exact absurd h (by simp)
      · simp only [Option.some.injEq] at h
        subst h
        exact ⟨⟨c, hc, by simp [Client.housed, hi]⟩, rfl⟩
    · exact absurd h (by simp)

theorem checkIn_disabled (cfg : Config) (w : World) (n : Nat)
    (h : w.hotel.available_room_count ≤ 0) : World.step cfg w (Step.checkIn n) = none := by
  simp only [World.step]
  split
  · rfl
  · simp [h]

/-- C1: for every capacity `C ≥ 0` and every state reachable from the initial
one (`available_room_count = C`, no client), `0 ≤ available_room_count ≤ C`;
a check-in is enabled only when `available_room_count > 0` and decrements it by
one, a check-out is taken by a client holding a room and increments it by one. -/
theorem pool_invariant (cfg : Config) (w : World) (hC : 0 ≤ cfg.rooms)
    (hw : Reachable cfg w) :
    (World.init cfg).hotel.available_room_count = cfg.rooms ∧
    (World.init cfg).housed = 0 ∧
    0 ≤ w.hotel.available_room_count ∧
    w.hotel.available_room_count ≤ cfg.rooms ∧
    (∀ (n : Nat) (w1 : World), World.step cfg w (Step.checkIn n) = some w1 →
      0 < w.hotel.available_room_count ∧
      w1.hotel.available_room_count = w.hotel.available_room_count - 1) ∧
    (∀ (n : Nat) (w1 : World), World.step cfg w (Step.checkOut n) = some w1 →
      (∃ c, w.clients[n]? = some c ∧ c.housed = true) ∧
      w1.hotel.available_room_count = w.hotel.available_room_count + 1) := by
  obtain ⟨hsum, hpos⟩ := poolInv_reachable cfg hC w hw
  refine ⟨rfl, rfl, hpos, by omega, ?_, ?_⟩
  · intro n w1 h
    exact checkIn_effect cfg w w1 n h
  · intro n w1 h
    exact checkOut_effect cfg w w1 n h

/-- Scenario A after the first client has checked in: no room is free. -/
theorem pool_invariant_witness :
    0 ≤ scenarioA.rooms ∧
    Reachable scenarioA (World.after scenarioA [Step.dayEnd, Step.checkIn 0]) ∧
    (World.after scenarioA [Step.dayEnd, Step.checkIn 0]).hotel.available_room_count = 0 ∧
    0 ≤ (World.after scenarioA [Step.dayEnd, Step.checkIn 0]).hotel.available_room_count ∧
    (World.after scenarioA [Step.dayEnd, Step.checkIn 0]).hotel.available_room_count ≤
      scenarioA.rooms :=
  ⟨by decide, ⟨[Step.dayEnd, Step.checkIn 0], by decide⟩, by decide,
   (pool_invariant scenarioA (World.after scenarioA [Step.dayEnd, Step.checkIn 0]) (by decide)
      ⟨[Step.dayEnd, Step.checkIn 0], by decide⟩).2.2.1,
   (pool_invariant scenarioA (World.after scenarioA [Step.dayEnd, Step.checkIn 0]) (by decide)
      ⟨[Step.dayEnd, Step.checkIn 0], by decide⟩).2.2.2.1⟩

/-- C2: for every capacity `C ≥ 0` and every reachable state the number of
clients that have checked in and not checked out is at most `C`; while it
equals `C` no check-in step is enabled; so with `C = 1` at most one client is
housed and, while one is, no other client can check in. -/
theorem no_oversubscription (cfg : Config) (w : World) (hC : 0 ≤ cfg.rooms)
    (hw : Reachable cfg w) :
    (w.housed : Int) ≤ cfg.rooms ∧
    ((w.housed : Int) = cfg.rooms → ∀ n : Nat, World.step cfg w (Step.checkIn n) = none) ∧
    (cfg.rooms = 1 → w.housed ≤ 1 ∧
      (0 < w.housed → ∀ n : Nat, World.step cfg w (Step.checkIn n) = none)) := by
  obtain ⟨hsum, hpos⟩ := poolInv_reachable cfg hC w hw
  refine ⟨by omega, ?_, ?_⟩
  · intro h n
    exact checkIn_disabled cfg w n (by omega)
  · intro h1
    refine ⟨by omega, ?_⟩
    intro h n
    exact checkIn_disabled cfg w n (by omega)

/-- Scenario A with the first client housed and a second one created: the
second cannot check in. -/
theorem no_oversubscription_witness :
    0 ≤ scenarioA.rooms ∧
    Reachable scenarioA (World.after scenarioA [Step.dayEnd, Step.checkIn 0, Step.dayEnd]) ∧
    (World.after scenarioA [Step.dayEnd, Step.checkIn 0, Step.dayEnd]).clients.length = 2 ∧
    (World.after scenarioA [Step.dayEnd, Step.checkIn 0, Step.dayEnd]).housed = 1 ∧
    World.step scenarioA (World.after scenarioA [Step.dayEnd, Step.checkIn 0, Step.dayEnd])
      (Step.checkIn 1) = none :=
  ⟨by decide, ⟨[Step.dayEnd, Step.checkIn 0, Step.dayEnd], by decide⟩, by decide, by decide,
   ((no_oversubscription scenarioA
      (World.after scenarioA [Step.dayEnd, Step.checkIn 0, Step.dayEnd]) (by decide)
      ⟨[Step.dayEnd, Step.checkIn 0, Step.dayEnd], by decide⟩).2.2 (by decide)).2 (by decide) 1⟩

/-! ## The cap and the ids -/

/-- C7: with cap 1 and thirty rooms the state after a day-end, the check-in of
client 1 (both of its critical sections) and a second day-end is reachable and
holds two clients, one housed and one waiting: more than the cap. -/
theorem live_cap_exceeded :
    Reachable capOne
      (World.after capOne [Step.dayEnd, Step.checkIn 0, Step.leaveBench 0, Step.dayEnd]) ∧
    capOne.MAX_CLIENT_COUNT = 1 ∧
    (World.after capOne
      [Step.dayEnd, Step.checkIn 0, Step.leaveBench 0, Step.dayEnd]).alive = 2 ∧
    (World.after capOne
      [Step.dayEnd, Step.checkIn 0, Step.leaveBench 0, Step.dayEnd]).housed = 1 ∧
    (World.after capOne
      [Step.dayEnd, Step.checkIn 0, Step.leaveBench 0, Step.dayEnd]).gen.clients_count = 1 :=
  ⟨⟨[Step.dayEnd, Step.checkIn 0, Step.leaveBench 0, Step.dayEnd], by decide⟩,
   by decide, by decide, by decide, by decide⟩

theorem countUp_length (n : Nat) : (countUp n).length = n := by
  simp [countUp_eq_map]

theorem countUp_nodup (n : Nat) : (countUp n).Nodup := by
  rw [countUp_eq_map]
  apply List.Nodup.map _ (List.nodup_range n)
  intro a b h
  simp only [add_left_inj, Nat.cast_inj] at h
  exact h

theorem idInv_step (cfg : Config) (w w1 : World) (s : Step)
    (h : World.step cfg w s = some w1) (hw : IdInv w) : IdInv w1 := by
  obtain ⟨hids, hi⟩ := hw
  cases s with
  | dayEnd =>
    simp only [World.step] at h
    split at h
    · exact absurd h (by simp)
    · rename_i r hr
      simp only [Option.some.injEq] at h
      subst h
      have key := iteration_induct
        (fun g l => (w.clients ++ l).map Client.id = countUp (w.clients ++ l).length ∧
          g.i = ((w.clients ++ l).length : Int) + 1)
        _ _ _ ?_ w.gen r hr ?_
      · exact key
      · intro s hs
        obtain ⟨h1, h2⟩ := hs
        constructor
        · simp only [Generator.spawn, ← List.append_assoc, List.map_append, h1, List.length_append,
            List.map_cons, List.map_nil, List.length_cons, List.length_nil, Client.new]
          rw [h2]
          simp [countUp]
        · simp only [Generator.spawn, h2]
          simp only [← List.append_assoc, List.length_append, List.length_cons, List.length_nil]
          push_cast
          ring
      · simpa [Generator.drawn] using ⟨hids, hi⟩
  | checkIn n =>
    simp only [World.step] at h
    split at h
    · exact absurd h (by simp)
    · rename_i c hc
      split at h
      · simp only [Option.some.injEq] at h
        subst h
        exact ⟨by simpa [map_id_set { c with pc := Pc.checkedIn } c rfl w.clients n hc] using hids,
          by simpa using hi⟩
      · exact absurd h (by simp)
  | leaveBench n =>
    simp only [World.step] at h
    split at h
    · exact absurd h (by simp)
    · rename_i c hc
      split at h
      · simp only [Option.some.injEq] at h
        subst h
        exact ⟨by simpa [map_id_set { c with pc := Pc.staying 0 } c rfl w.clients n hc] using hids,
          by simpa using hi⟩
      · exact absurd h (by simp)
  | dayStart n =>
    simp only [World.step] at h
    split at h
    · exact absurd h (by simp)
    · rename_i c hc
      split at h
      · rename_i i _
        split at h
        · simp only [Option.some.injEq] at h
          subst h
          exact ⟨by simpa [map_id_set { c with pc := Pc.staying (i + 1) } c rfl w.clients n hc]
            using hids, by simpa using hi⟩
        · exact absurd h (by simp)
      · exact absurd h (by simp)
  | checkOut n =>
    simp only [World.step] at h
    split at h
    · exact absurd h (by simp)
    · rename_i c hc
      split at h
      · split at h
        · exact absurd h (by simp)
        · simp only [Option.some.injEq] at h
          subst h
          exact ⟨by simpa [map_id_set { c with pc := Pc.gone } c rfl w.clients n hc] using hids,
            by simpa using hi⟩
      · exact absurd h (by simp)

/-- C8: in every reachable state, whatever the cap, the draws and the steps of
the clients between the day-ends, the ids of the clients created so far are, in
creation order, exactly `1, 2, ..., n` for `n` the number of clients created;
no two clients share an id; and the next id to be given is `n + 1`. -/
theorem ids_sequential (cfg : Config) (w : World) (hw : Reachable cfg w) :
    w.clients.map Client.id = countUp w.clients.length ∧
    (w.clients.map Client.id).Nodup ∧
    w.gen.i = (w.clients.length : Int) + 1 := by
  have h : IdInv w := by
    apply reachable_induct cfg IdInv _ (idInv_step cfg) w hw
    exact ⟨rfl, rfl⟩
  exact ⟨h.1, h.1 ▸ countUp_nodup _, h.2⟩

/-- Two day-ends, both cut short by the cap of 2: three clients, ids 1, 2, 3. -/
theorem ids_sequential_witness :
    Reachable capTwo
      (World.after capTwo [Step.dayEnd, Step.checkIn 0, Step.leaveBench 0, Step.dayEnd]) ∧
    (World.after capTwo
      [Step.dayEnd, Step.checkIn 0, Step.leaveBench 0, Step.dayEnd]).clients.length = 3 ∧
    (World.after capTwo
      [Step.dayEnd, Step.checkIn 0, Step.leaveBench 0, Step.dayEnd]).clients.map Client.id =
      countUp (World.after capTwo
        [Step.dayEnd, Step.checkIn 0, Step.leaveBench 0, Step.dayEnd]).clients.length :=
  ⟨⟨[Step.dayEnd, Step.checkIn 0, Step.leaveBench 0, Step.dayEnd], by decide⟩, by decide,
   (ids_sequential capTwo
      (World.after capTwo [Step.dayEnd, Step.checkIn 0, Step.leaveBench 0, Step.dayEnd])
      ⟨[Step.dayEnd, Step.checkIn 0, Step.leaveBench 0, Step.dayEnd], by decide⟩).1⟩

/-! ## What `clients_count` counts -/

theorem iteration_counter (cap m : Int) (rand : Nat → Nat) (g : Generator) (r : GenRun)
    (h : Generator.iteration cap m rand g = some r) (hc : g.clients_count ≤ cap) :
    r.gen.clients_count = g.clients_count + (r.started.length : Int) ∧
    r.gen.clients_count ≤ cap := by
  obtain ⟨count, _, hg, hs⟩ := iteration_eq cap m rand g r h
  have hd : (Generator.drawn g).gen.clients_count ≤ cap := hc
  obtain ⟨a, b, _⟩ := spawnLoop_spec cap rand count count.toNat 0 (Generator.drawn g) hd (by simp)
  have hds : (Generator.drawn g).started.length = 0 := rfl
  have hdc : (Generator.drawn g).gen.clients_count = g.clients_count := rfl
  rw [hds, hdc] at a
  rw [hdc] at b
  rw [hg, hs]
  refine ⟨?_, spawnLoop_le_cap cap rand count _ 0 _ hd⟩
  rw [b, a]
  simp

theorem iteration_benched (cap m : Int) (rand : Nat → Nat) (g : Generator) (r : GenRun)
    (h : Generator.iteration cap m rand g = some r) :
    r.started.countP Client.benched = r.started.length := by
  refine iteration_induct (fun _ l => l.countP Client.benched = l.length) cap m rand ?_ g r h rfl
  intro s hs
  simp only [Generator.spawn, List.countP_append, hs, List.length_append]
  rfl

theorem benchInv_step (cfg : Config) (w w1 : World) (s : Step)
    (h : World.step cfg w s = some w1) (hw : BenchInv cfg w) : BenchInv cfg w1 := by
  obtain ⟨hcnt, hle⟩ := hw
  cases s with
  | dayEnd =>
    simp only [World.step] at h
    split at h
    · exact absurd h (by simp)
    · rename_i r hr
      simp only [Option.some.injEq] at h
      subst h
      obtain ⟨h1, h2⟩ := iteration_counter _ _ _ _ _ hr hle
      have h3 := iteration_benched _ _ _ _ _ hr
      simp only [BenchInv, List.countP_append, h3]
      exact ⟨by push_cast; omega, h2⟩
  | checkIn n =>
    simp only [World.step] at h
    split at h
    · exact absurd h (by simp)
    · rename_i c hc
      split at h
      · rename_i hg
        simp only [Option.some.injEq] at h
        subst h
        have hset := countP_set_getElem Client.benched { c with pc := Pc.checkedIn } c
          w.clients n hc
        have h1 : Client.benched c = true := by simp [Client.benched, hg.1]
        have h2 : Client.benched { c with pc := Pc.checkedIn } = true := rfl
        simp only [h1, h2] at hset
        simp only [BenchInv]
        exact ⟨by simp at hset; omega, hle⟩
      · exact absurd h (by simp)
  | leaveBench n =>
    simp only [World.step] at h
    split at h
    · exact absurd h (by simp)
    · rename_i c hc
      split at h
      · rename_i hg
        simp only [Option.some.injEq] at h
        subst h
        have hset := countP_set_getElem Client.benched { c with pc := Pc.staying 0 } c
          w.clients n hc
        have h1 : Client.benched c = true := by simp [Client.benched, hg]
        have h2 : Client.benched { c with pc := Pc.staying 0 } = false := rfl
        simp only [h1, h2] at hset
        simp only [BenchInv]
        exact ⟨by simp at hset; omega, by omega⟩
      · exact absurd h (by simp)
  | dayStart n =>
    simp only [World.step] at h
    split at h
    · exact absurd h (by simp)
    · rename_i c hc
      split at h
      · rename_i i hi
        split at h
        · simp only [Option.some.injEq] at h
          subst h
          have hset := countP_set_getElem Client.benched { c with pc := Pc.staying (i + 1) } c
            w.clients n hc
          have h1 : Client.benched c = false := by simp [Client.benched, hi]
          have h2 : Client.benched { c with pc := Pc.staying (i + 1) } = false := rfl
          simp only [h1, h2] at hset
          simp only [BenchInv]
          exact ⟨by simp at hset; omega, hle⟩
        · exact absurd h (by simp)
      · exact absurd h (by simp)
  | checkOut n =>
    simp only [World.step] at h
    split at h
    · exact absurd h (by simp)
    · rename_i c hc
      split at h
      · rename_i i hi
        split at h
        · exact absurd h (by simp)
        · simp only [Option.some.injEq] at h
          subst h
          have hset := countP_set_getElem Client.benched { c with pc := Pc.gone } c w.clients n hc
          have h1 : Client.benched c = false := by simp [Client.benched, hi]
          have h2 : Client.benched { c with pc := Pc.gone } = false := rfl
          simp only [h1, h2] at hset
          simp only [BenchInv]
          exact ⟨by simp at hset; omega, hle⟩
      · exact absurd h (by simp)

theorem alive_le_benched_add_housed (l : List Client) :
    l.countP Client.alive ≤ l.countP Client.benched + l.countP Client.housed := by
  induction l with
  | nil => simp
  | cons c cs ih =>
    simp only [List.countP_cons]
    cases hpc : c.pc <;> simp [Client.alive, Client.benched, Client.housed, hpc] <;> omega

/-- What the code enforces in place of a cap on all live clients: in every
reachable state `clients_count` is the number of clients that have not yet run
their decrement and is at most `MAX_CLIENT_COUNT`, and the clients that exist,
waiting or housed, number at most `MAX_CLIENT_COUNT` plus the room capacity. -/
theorem alive_bound (cfg : Config) (w : World) (hcap : 0 ≤ cfg.MAX_CLIENT_COUNT)
    (hC : 0 ≤ cfg.rooms) (hw : Reachable cfg w) :
    w.gen.clients_count = (w.clients.countP Client.benched : Int) ∧
    w.gen.clients_count ≤ cfg.MAX_CLIENT_COUNT ∧
    (w.alive : Int) ≤ cfg.MAX_CLIENT_COUNT + cfg.rooms := by
  have hb : BenchInv cfg w := by
    apply reachable_induct cfg (BenchInv cfg) _ (benchInv_step cfg) w hw
    exact ⟨rfl, hcap⟩
  obtain ⟨hsum, _⟩ := poolInv_reachable cfg hC w hw
  obtain ⟨h1, h2⟩ := hb
  have h3 := alive_le_benched_add_housed w.clients
  unfold World.housed at hsum
  unfold World.alive
  refine ⟨h1, h2, ?_⟩
  omega

/-! ## The day-zero broadcast -/

theorem dayLoop_trace (N : Int) : ∀ (fuel : Nat) (i : Int) (s : HotelRun),
    ∃ tail, (Hotel.dayLoop N fuel i s).trace = s.trace ++ tail := by
  intro fuel
  induction fuel with
  | zero => intro i s; exact ⟨[], by simp [Hotel.dayLoop]⟩
  | succ fuel ih =>
    intro i s
    unfold Hotel.dayLoop
    by_cases hi : i < N
    · simp only [hi, if_true]
      obtain ⟨tail, ht⟩ := ih (i + 1) (Hotel.dayBody s)
      rw [ht]
      exact ⟨[Act.logDayStarted (s.hotel.current_day + 1),
        Act.broadcast Cond.day_started (s.hotel.current_day + 1), Act.sleep,
        Act.logDayEnded (s.hotel.current_day + 1),
        Act.broadcast Cond.day_ended (s.hotel.current_day + 1), Act.sleep] ++ tail,
        by simp only [Hotel.dayBody, List.append_assoc]⟩
    · simp only [hi, if_false]
      exact ⟨[], by simp⟩

/-- The first action of `Hotel::run` is the day-zero broadcast of `day_ended`. -/
theorem run_first (N : Int) (rooms : Int) :
    ∃ tail, (Hotel.run N (Hotel.new rooms)).trace = Act.broadcast Cond.day_ended 0 :: tail := by
  obtain ⟨tail, ht⟩ := dayLoop_trace N N.toNat 0
    { hotel := Hotel.new rooms,
      trace := [Act.broadcast Cond.day_ended (Hotel.new rooms).current_day, Act.sleep] }
  refine ⟨Act.sleep :: (tail ++ [Act.logBreak]), ?_⟩
  simp only [Hotel.run, ht]
  simp [Hotel.new]

theorem behind_step (t t1 : Threads) (s : Sched) (h : Threads.step t s = some t1)
    (ht : Behind t) : Behind t1 := by
  unfold Behind at ht ⊢
  cases s with
  | hotel =>
    simp only [Threads.step] at h
    split at h
    · exact absurd h (by simp)
    · simp only [Option.some.injEq] at h
      subst h
      simp only
      split at ht <;> split <;> simp_all <;> omega
    · simp only [Option.some.injEq] at h
      subst h
      exact ht
  | generator =>
    simp only [Threads.step] at h
    split at h
    · rename_i hpc
      simp only [Option.some.injEq] at h
      subst h
      simp only [hpc] at ht
      simpa using ht
    · rename_i hpc
      simp only [Option.some.injEq] at h
      subst h
      simp only [hpc] at ht
      simpa using ht
    · exact absurd h (by simp)
    · rename_i hpc
      simp only [Option.some.injEq] at h
      subst h
      simp only [hpc] at ht
      simp only [if_true] at ht
      simp
      omega

theorem behind_exec : ∀ (sched : List Sched) (t t1 : Threads),
    Threads.exec t sched = some t1 → Behind t → Behind t1 := by
  intro sched
  induction sched with
  | nil =>
    intro t t1 h ht
    simp only [Threads.exec, Option.some.injEq] at h
    exact h ▸ ht
  | cons s rest ih =>
    intro t t1 h ht
    unfold Threads.exec at h
    cases hs : Threads.step t s with
    | none => rw [hs] at h; exact absurd h (by simp)
    | some t2 =>
      rw [hs] at h
      exact ih t2 t1 h (behind_step t t2 s hs ht)

/-- C10: for every `number_of_days`, in every schedule in which the clock thread
takes the first step (its day-zero broadcast of `day_ended`, issued before the
generator thread has reached its `pthread_cond_wait`), the generator has, at
every later moment, processed fewer day-end events than the clock has issued:
the day-zero event is never processed. -/
theorem day_zero_event_lost (N : Nat) (rest : List Sched) (t : Threads)
    (h : Threads.exec (Threads.init (N : Int)) (Sched.hotel :: rest) = some t) :
    t.processed < t.issued := by
  obtain ⟨tail, htail⟩ := run_first (N : Int) 30
  have hstep : Threads.step (Threads.init (N : Int)) Sched.hotel =
      some { hotel := tail, genPc := GenPc.atLock, issued := 1, processed := 0 } := by
    simp [Threads.step, Threads.init, htail]
  unfold Threads.exec at h
  rw [hstep] at h
  have hb : Behind { hotel := tail, genPc := GenPc.atLock, issued := 1, processed := 0 } := by
    simp [Behind]
  have := behind_exec rest _ t h hb
  unfold Behind at this
  omega

/-- With `number_of_days = 0` and the clock running first, the run ends with
the generator blocked for good, one event issued and none processed. -/
theorem day_zero_event_lost_witness :
    Threads.exec (Threads.init ((0 : Nat) : Int))
      [Sched.hotel, Sched.hotel, Sched.hotel, Sched.generator, Sched.generator] =
      some { hotel := [], genPc := GenPc.blocked, issued := 1, processed := 0 } ∧
    (∀ s : Sched, Threads.step
      { hotel := [], genPc := GenPc.blocked, issued := 1, processed := 0 } s = none) ∧
    ({ hotel := [], genPc := GenPc.blocked, issued := 1, processed := 0 } : Threads).processed <
      ({ hotel := [], genPc := GenPc.blocked, issued := 1, processed := 0 } : Threads).issued :=
  ⟨by decide, fun s => by cases s <;> rfl,
   day_zero_event_lost 0 [Sched.hotel, Sched.hotel, Sched.generator, Sched.generator]
     { hotel := [], genPc := GenPc.blocked, issued := 1, processed := 0 } (by decide)⟩

end HotelSim
